import Mathlib

/-!
Verification of the tx3 web-sdk argument codec and TRP client.

This file shallowly embeds the TypeScript source of the `tx3-sdk` package:

* `args.ts` — the primitive codec (`toJson` / `fromJson`) between the
  tagged-union `ArgValue` representation and the JSON wire format, together
  with the hex / base64 / bech32 / two's-complement helpers it uses;
* `types.ts` — the `ArgValue` factories and the TRP error classes;
* `client.ts` — the JSON-RPC request/response handling and the
  camelCase→snake_case key transform of the marshaller.

JavaScript strings are modelled as `List Char`, byte arrays (`Uint8Array`)
as `List Nat` whose entries are below 256, JavaScript `number` values as
rationals (a JS number holds non-integer values; every integral value the
codec produces is exactly representable), and `bigint` as `Int`.  Thrown
`ArgValueError`s are modelled with `Except`.
-/

/-- ASCII lower-casing, the fragment of JS `toLowerCase` relevant here. -/
def toLowerAscii (c : Char) : Char :=
  if 65 ≤ c.toNat ∧ c.toNat ≤ 90 then Char.ofNat (c.toNat + 32) else c

/-- ASCII upper-casing, the fragment of JS `toUpperCase` relevant here. -/
def toUpperAscii (c : Char) : Char :=
  if 97 ≤ c.toNat ∧ c.toNat ≤ 122 then Char.ofNat (c.toNat - 32) else c

/-- The character class `[0-9a-fA-F]` used by `hexToBytes` validation. -/
def isHexDigitChar (c : Char) : Bool :=
  (48 ≤ c.toNat && c.toNat ≤ 57) || (97 ≤ c.toNat && c.toNat ≤ 102) ||
    (65 ≤ c.toNat && c.toNat ≤ 70)

/-- The character class `[0-9a-f]` of the spec's wire pattern. -/
def isLowerHexChar (c : Char) : Bool :=
  (48 ≤ c.toNat && c.toNat ≤ 57) || (97 ≤ c.toNat && c.toNat ≤ 102)

/-- Numeric value of one hex digit, as computed by JS `parseInt(c, 16)`. -/
def hexDigitVal (c : Char) : Nat :=
  if 48 ≤ c.toNat ∧ c.toNat ≤ 57 then c.toNat - 48
  else if 97 ≤ c.toNat ∧ c.toNat ≤ 102 then c.toNat - 87
  else if 65 ≤ c.toNat ∧ c.toNat ≤ 70 then c.toNat - 55
  else 0

/-- Hex digit character of a nibble, as produced by JS `Number.toString(16)`
(only applied to values below 16). -/
def hexDigitChar (n : Nat) : Char :=
  if n < 10 then Char.ofNat (48 + n) else Char.ofNat (87 + n)

/-- Errors thrown as `ArgValueError` in `args.ts`, one constructor per
`throw` site, carrying the interpolated datum. -/
inductive ArgErr where
  | invalidHexString (s : List Char)
  | invalidBase64 (s : List Char)
  | numberNotInteger (q : ℚ)
  | numberOutsideI128 (q : ℚ)
  | invalidBytesForNumber (s : List Char)
  | valueIsNull
  | valueNotANumber
  | invalidNumberForBoolean (q : ℚ)
  | invalidStringForBoolean (s : List Char)
  | valueNotABool
  | unknownEncoding (s : List Char)
  | valueNotBytes
  | valueNotAnAddress
  | cantInferType
  | invalidUtxoRef (s : List Char)
  | valueNotUtxoRef
  deriving DecidableEq, Repr

/-- The fixed part of each `ArgValueError` message (the TS source appends
the interpolated datum after a colon). -/
def ArgErr.message : ArgErr → String
  | .invalidHexString _ => "Invalid hex string"
  | .invalidBase64 _ => "Invalid base64"
  | .numberNotInteger _ => "Number is not an integer"
  | .numberOutsideI128 _ => "Number is outside i128 range"
  | .invalidBytesForNumber _ => "Invalid bytes for number"
  | .valueIsNull => "Value is null"
  | .valueNotANumber => "Value is not a number"
  | .invalidNumberForBoolean _ => "Invalid number for boolean"
  | .invalidStringForBoolean _ => "Invalid string for boolean"
  | .valueNotABool => "Value is not a bool"
  | .unknownEncoding _ => "Unknown encoding"
  | .valueNotBytes => "Value is not bytes"
  | .valueNotAnAddress => "Value is not an address"
  | .cantInferType => "Can't infer type for value"
  | .invalidUtxoRef _ => "Invalid utxo ref"
  | .valueNotUtxoRef => "Value is not utxo ref"

/-- `s.startsWith('0x') ? s.slice(2) : s` in `hexToBytes`. -/
def stripHexPfx : List Char → List Char
  | '0' :: 'x' :: rest => rest
  | s => s

/-- The per-pair parsing loop of `hexToBytes`: every two hex characters
become one byte `parseInt(pair, 16)`. -/
def hexPairsToBytes : List Char → List Nat
  | c1 :: c2 :: rest => (16 * hexDigitVal c1 + hexDigitVal c2) :: hexPairsToBytes rest
  | _ => []

/-- `hexToBytes` from `args.ts`: strip an optional `0x` prefix, reject
odd length or non-hex characters, then parse byte pairs. -/
def hexToBytes (s : List Char) : Except ArgErr (List Nat) :=
  let cleanHex := stripHexPfx s
  if cleanHex.length % 2 ≠ 0 then .error (.invalidHexString s)
  else if ¬ cleanHex.all isHexDigitChar then .error (.invalidHexString s)
  else .ok (hexPairsToBytes cleanHex)

/-- One byte to two hex chars: `b.toString(16).padStart(2, '0')`
(entries of a `Uint8Array` are below 256). -/
def byteToHexChars (b : Nat) : List Char :=
  [hexDigitChar (b / 16), hexDigitChar (b % 16)]

/-- `bytesToHex` from `args.ts`. -/
def bytesToHex (bytes : List Nat) : List Char :=
  (bytes.map byteToHexChars).flatten

example : hexToBytes "deadbeef".data = .ok [0xde, 0xad, 0xbe, 0xef] := by rfl
example : hexToBytes "0xA1".data = .ok [0xa1] := by rfl
example : hexToBytes "abc".data = .error (.invalidHexString "abc".data) := by rfl
example : hexToBytes "zz".data = .error (.invalidHexString "zz".data) := by rfl
example : bytesToHex [0xde, 0xad, 0x01] = "dead01".data := by decide

/-- Safe-integer bounds: `Number.MIN_SAFE_INTEGER` / `Number.MAX_SAFE_INTEGER`. -/
def MAX_SAFE_INTEGER : Int := 2 ^ 53 - 1

def MIN_SAFE_INTEGER : Int := -(2 ^ 53 - 1)

/-- `MIN_I128` from `args.ts`. -/
def MIN_I128 : Int := -(2 ^ 127)

/-- `MAX_I128` from `args.ts`. -/
def MAX_I128 : Int := 2 ^ 127 - 1

/-- Host/JSON values as seen by the codec.  `num` is a JS `number`
(modelled exactly as a rational), `bigint` a JS `bigint`, `envelope` an
object of the `BytesEnvelope` shape, and `other` stands for any further
host value (its `typeof` matches none of the codec's branches). -/
inductive Jval where
  | num (q : ℚ)
  | str (s : List Char)
  | bool (b : Bool)
  | bigint (i : Int)
  | null
  | envelope (content : List Char) (encoding : List Char)
  | other (desc : List Char)
  deriving DecidableEq, Repr

/-- `UtxoRef` from `types.ts` (`txid: Uint8Array; index: number`). -/
structure UtxoRef where
  txid : List Nat
  index : Int
  deriving DecidableEq, Repr

/-- `PrimitiveArgValue` from `types.ts`, without `UtxoSet` (claims treat it
separately and none of the checked properties mention it). -/
inductive ArgValue where
  | int (v : Int)
  | bool (b : Bool)
  | str (s : List Char)
  | bytes (bs : List Nat)
  | address (bs : List Nat)
  | utxoRef (r : UtxoRef)
  deriving DecidableEq, Repr

/-- The `Type` enum from `types.ts` (decode target types). -/
inductive Ty where
  | int
  | bool
  | bytes
  | address
  | utxoRef
  | undefined
  deriving DecidableEq, Repr

/-- Little-endian base-256 digits, `k` of them: the body of the byte-filling
loop of `bigintToValue` (`bytes[j] = value & 0xff; value >>= 8`), which runs
from the last index to the first and therefore produces these digits in
reverse. -/
def bytesLE : Nat → Nat → List Nat
  | 0, _ => []
  | k + 1, n => n % 256 :: bytesLE k (n / 256)

/-- `~b & 0xff` applied to a byte (entries are below 256). -/
def complementByte (b : Nat) : Nat := 255 - b

/-- The carry loop of `bigintToValue` (`for j = 15 .. 0 while carry`),
expressed on the little-endian reversal of the byte array. -/
def addOneLE : List Nat → List Nat
  | [] => []
  | b :: rest => if b + 1 ≥ 256 then (b + 1) % 256 :: addOneLE rest else (b + 1) :: rest

/-- `bigintToValue` from `args.ts`: safe-range integers become host numbers,
everything else 16 big-endian bytes of the absolute value, two's-complemented
when negative, rendered as a `0x` hex string. -/
def bigintToValue (i : Int) : Jval :=
  if MIN_SAFE_INTEGER ≤ i ∧ i ≤ MAX_SAFE_INTEGER then
    .num (i : ℚ)
  else
    let bytes := (bytesLE 16 i.natAbs).reverse
    let bytes :=
      if i < 0 then (addOneLE (bytes.map complementByte).reverse).reverse else bytes
    .str ('0' :: 'x' :: bytesToHex bytes)

/-- `numberToBigint` from `args.ts`. -/
def numberToBigint (x : ℚ) : Except ArgErr Int :=
  if x.den ≠ 1 then .error (.numberNotInteger x)
  else
    let bigintValue := x.num
    if bigintValue < MIN_I128 ∨ bigintValue > MAX_I128 then .error (.numberOutsideI128 x)
    else .ok bigintValue

/-- `stringToBigint` from `args.ts`: hex-decode, require exactly 16 bytes,
fold big-endian (`result = (result << 8) | byte`), then undo two's
complement when the top bit of byte 0 is set. -/
def stringToBigint (s : List Char) : Except ArgErr Int :=
  match hexToBytes s with
  | .error e => .error e
  | .ok bytes =>
    if bytes.length ≠ 16 then .error (.invalidBytesForNumber s)
    else
      let result : Int := bytes.foldl (fun (r : Int) (b : Nat) => r * 256 + (b : Int)) 0
      if (bytes.headD 0).testBit 7 then .ok (result - 2 ^ 128) else .ok result

/-- `valueToBigint` from `args.ts`.  The `typeof value === 'number'` branch
is `num`, the string branch is `str`; a JS `bigint`, like every other
non-null value, falls through to the final `else`. -/
def valueToBigint : Jval → Except ArgErr Int
  | .num q => numberToBigint q
  | .str s => stringToBigint s
  | .null => .error .valueIsNull
  | _ => .error .valueNotANumber

/-- `valueToBool` from `args.ts`. -/
def valueToBool : Jval → Except ArgErr Bool
  | .bool b => .ok b
  | .num q => if q = 0 then .ok false else if q = 1 then .ok true
              else .error (.invalidNumberForBoolean q)
  | .str s => if s = "true".data then .ok true else if s = "false".data then .ok false
              else .error (.invalidStringForBoolean s)
  | _ => .error .valueNotABool

example : bigintToValue 42 = .num 42 := by rfl
example : bigintToValue (2 ^ 60) = .str "0x00000000000000001000000000000000".data := by rfl
example : bigintToValue (-(2 ^ 60)) = .str "0xfffffffffffffffff000000000000000".data := by rfl
example : stringToBigint "0xfffffffffffffffff000000000000000".data = .ok (-(2 ^ 60)) := by rfl
example : valueToBigint (.bigint 7) = .error .valueNotANumber := by rfl

/-- One 6-bit value per base64 character (the alphabet used by `atob`). -/
def base64CharVal (c : Char) : Option Nat :=
  if 65 ≤ c.toNat ∧ c.toNat ≤ 90 then some (c.toNat - 65)
  else if 97 ≤ c.toNat ∧ c.toNat ≤ 122 then some (c.toNat - 97 + 26)
  else if 48 ≤ c.toNat ∧ c.toNat ≤ 57 then some (c.toNat - 48 + 52)
  else if c = '+' then some 62
  else if c = '/' then some 63
  else none

/-- ASCII whitespace stripped by `atob` (forgiving-base64). -/
def isAsciiWs (c : Char) : Bool :=
  c = ' ' ∨ c = '\t' ∨ c = '\n' ∨ c = '\x0c' ∨ c = '\r'

/-- Trailing `=` padding removal of forgiving-base64 (at most two). -/
def dropB64Padding (s : List Char) : List Char :=
  match s.reverse with
  | '=' :: '=' :: r => r.reverse
  | '=' :: r => r.reverse
  | _ => s

/-- Bit-repacking of 6-bit groups into bytes, as `atob` does. -/
def b64Chunks : List Nat → List Nat
  | a :: b :: c :: d :: rest =>
      (a * 4 + b / 16) :: ((b % 16) * 16 + c / 4) :: ((c % 4) * 64 + d) :: b64Chunks rest
  | [a, b] => [a * 4 + b / 16]
  | [a, b, c] => [a * 4 + b / 16, (b % 16) * 16 + c / 4]
  | _ => []

/-- `base64ToBytes` from `args.ts`: JS `atob` (forgiving-base64), any
failure reported as the `Invalid base64` error. -/
def base64ToBytes (s : List Char) : Except ArgErr (List Nat) :=
  let t := s.filter (fun c => ¬ isAsciiWs c)
  let t := if t.length % 4 = 0 then dropB64Padding t else t
  if t.length % 4 = 1 then .error (.invalidBase64 s)
  else
    match t.mapM base64CharVal with
    | none => .error (.invalidBase64 s)
    | some vs => .ok (b64Chunks vs)

/-- The bech32 character set `qpzry9x8gf2tvdw0s3jn54khce6mua7l`. -/
def bech32CharVal (c : Char) : Option Nat :=
  ("qpzry9x8gf2tvdw0s3jn54khce6mua7l".data).findIdx? (· = c)

/-- `polymodStep` of the npm `bech32` package (30-bit checksum state). -/
def polymodStep (pre : Nat) : Nat :=
  let b := pre >>> 25
  ((pre &&& 0x1ffffff) <<< 5) ^^^
    (if b.testBit 0 then 0x3b6a57b2 else 0) ^^^
    (if b.testBit 1 then 0x26508e6d else 0) ^^^
    (if b.testBit 2 then 0x1ea119fa else 0) ^^^
    (if b.testBit 3 then 0x3d4233dd else 0) ^^^
    (if b.testBit 4 then 0x2a1462b3 else 0)

/-- First loop of the bech32 `prefixChk`: validates character codes and
mixes `c >> 5` into the checksum. -/
def pfxChkHigh (chk : Nat) : List Char → Option Nat
  | [] => some chk
  | c :: rest =>
      if c.toNat < 33 ∨ 126 < c.toNat then none
      else pfxChkHigh (polymodStep chk ^^^ (c.toNat >>> 5)) rest

/-- `prefixChk` of the npm `bech32` package. -/
def pfxChk (pfx : List Char) : Option Nat :=
  match pfxChkHigh 1 pfx with
  | none => none
  | some chk =>
      some (pfx.foldl (fun ch c => polymodStep ch ^^^ (c.toNat &&& 0x1f)) (polymodStep chk))

/-- `str.lastIndexOf('1')`. -/
def lastIndexOfOne (s : List Char) : Option Nat :=
  match s.reverse.findIdx? (· = '1') with
  | none => none
  | some j => some (s.length - 1 - j)

/-- The decode loop of the npm `bech32` package: map every data character
through the alphabet, mixing each value into the checksum. -/
def bech32Words (chk : Nat) : List Nat → Nat
  | [] => chk
  | v :: rest => bech32Words (polymodStep chk ^^^ v) rest

/-- `bech32.decode` of the npm `bech32` package (limit 90, encoding const 1);
all thrown errors collapse to `none` because `valueToAddress` catches them. -/
def bech32Decode (str : List Char) : Option (List Char × List Nat) :=
  if str.length < 8 then none
  else if str.length > 90 then none
  else
    let lowered := str.map toLowerAscii
    let uppered := str.map toUpperAscii
    if str ≠ lowered ∧ str ≠ uppered then none
    else
      let str := lowered
      match lastIndexOfOne str with
      | none => none
      | some split =>
        if split = 0 then none
        else
          let pfx := str.take split
          let wordChars := str.drop (split + 1)
          if wordChars.length < 6 then none
          else
            match pfxChk pfx with
            | none => none
            | some chk =>
              match wordChars.mapM bech32CharVal with
              | none => none
              | some vs =>
                if bech32Words chk vs ≠ 1 then none
                else some (pfx, vs.take (vs.length - 6))

/-- `fromWords` of the npm `bech32` package: strict 5-to-8 bit regrouping
(`convert(words, 5, 8, false)`). -/
def fromWordsGo : List Nat → Nat → Nat → List Nat → Option (List Nat)
  | [], value, bits, acc =>
      if bits ≥ 5 then none
      else if (value <<< (8 - bits)) &&& 255 ≠ 0 then none
      else some acc.reverse
  | v :: rest, value, bits, acc =>
      let value := (value <<< 5) ||| v
      let bits := bits + 5
      if bits ≥ 8 then
        fromWordsGo rest value (bits - 8) (((value >>> (bits - 8)) &&& 255) :: acc)
      else fromWordsGo rest value bits acc

/-- `bech32ToBytes` from `args.ts` (`bech32.decode` then `bech32.fromWords`);
`none` models a thrown exception. -/
def bech32ToBytes (s : List Char) : Option (List Nat) :=
  match bech32Decode s with
  | none => none
  | some (_, words) => fromWordsGo words 0 0 []

set_option maxRecDepth 8192 in
example : bech32ToBytes "a12uel5l".data = some [] := by decide
example : bech32ToBytes "deadbeef".data = none := by rfl

/-- `valueToBytes` from `args.ts`.  A string is hex-decoded; an object with
`content` and `encoding` fields is a `BytesEnvelope`; anything else (null
included, since `null && ...` is falsy) is not bytes. -/
def valueToBytes : Jval → Except ArgErr (List Nat)
  | .str s => hexToBytes s
  | .envelope content encoding =>
      if encoding = "base64".data then base64ToBytes content
      else if encoding = "hex".data then hexToBytes content
      else .error (.unknownEncoding encoding)
  | _ => .error .valueNotBytes

/-- `valueToAddress` from `args.ts`: try bech32, on any thrown error fall
back to hex decoding. -/
def valueToAddress : Jval → Except ArgErr (List Nat)
  | .str s =>
      match bech32ToBytes s with
      | some bytes => .ok bytes
      | none => hexToBytes s
  | _ => .error .valueNotAnAddress

/-- `valueToUndefined` from `args.ts` (target-type inference). -/
def valueToUndefined : Jval → Except ArgErr ArgValue
  | .bool b => .ok (.bool b)
  | .num q =>
      match numberToBigint q with
      | .ok i => .ok (.int i)
      | .error e => .error e
  | .str s => .ok (.str s)
  | _ => .error .cantInferType

/-- JS whitespace skipped by `parseInt`. -/
def isJsWs (c : Char) : Bool :=
  c = ' ' ∨ c = '\t' ∨ c = '\n' ∨ c = '\r' ∨ c = '\x0b' ∨ c = '\x0c'

/-- Value of the longest leading run of decimal digits; `none` when there
is none (`parseInt` returns `NaN` in that case). -/
def decDigitsVal (s : List Char) : Option Nat :=
  let ds := s.takeWhile (fun c => 48 ≤ c.toNat && c.toNat ≤ 57)
  if ds.isEmpty then none
  else some (ds.foldl (fun a c => 10 * a + (c.toNat - 48)) 0)

/-- JS `parseInt(s, 10)`: skip whitespace, optional sign, then the longest
digit prefix; trailing non-digits are ignored; `none` models `NaN`. -/
def parseIntBase10 (s : List Char) : Option Int :=
  let t := s.dropWhile isJsWs
  match t with
  | '-' :: rest => (decDigitsVal rest).map (fun n => -(n : Int))
  | '+' :: rest => (decDigitsVal rest).map (fun n => (n : Int))
  | _ => (decDigitsVal t).map (fun n => (n : Int))

/-- `stringToUtxoRef` from `args.ts`: split on `#`, require exactly two
segments, hex-decode the txid, `parseInt` the index and reject `NaN`. -/
def stringToUtxoRef (s : List Char) : Except ArgErr UtxoRef :=
  let parts := s.splitOn '#'
  if parts.length ≠ 2 then .error (.invalidUtxoRef s)
  else
    let txidHex := parts.headD []
    let indexStr := parts.getD 1 []
    match hexToBytes txidHex with
    | .error e => .error e
    | .ok txid =>
      match parseIntBase10 indexStr with
      | none => .error (.invalidUtxoRef s)
      | some index => .ok ⟨txid, index⟩

/-- `valueToUtxoRef` from `args.ts`. -/
def valueToUtxoRef : Jval → Except ArgErr UtxoRef
  | .str s => stringToUtxoRef s
  | _ => .error .valueNotUtxoRef

/-- `utxoRefToValue` from `args.ts`. -/
def utxoRefToValue (x : UtxoRef) : List Char :=
  bytesToHex x.txid ++ '#' :: (toString x.index).data

/-- `toJson` from `args.ts` (the `UtxoSet` arm projects each element and is
outside the round-trip claims, which exclude it). -/
def toJson : ArgValue → Jval
  | .int v => bigintToValue v
  | .bool b => .bool b
  | .str s => .str s
  | .bytes bs => .str ('0' :: 'x' :: bytesToHex bs)
  | .address bs => .str (bytesToHex bs)
  | .utxoRef r => .str (utxoRefToValue r)

/-- `fromJson` from `args.ts`. -/
def fromJson (value : Jval) (target : Ty) : Except ArgErr ArgValue :=
  match target with
  | .int =>
      match valueToBigint value with
      | .ok i => .ok (.int i)
      | .error e => .error e
  | .bool =>
      match valueToBool value with
      | .ok b => .ok (.bool b)
      | .error e => .error e
  | .bytes =>
      match valueToBytes value with
      | .ok bs => .ok (.bytes bs)
      | .error e => .error e
  | .address =>
      match valueToAddress value with
      | .ok bs => .ok (.address bs)
      | .error e => .error e
  | .utxoRef =>
      match valueToUtxoRef value with
      | .ok r => .ok (.utxoRef r)
      | .error e => .error e
  | .undefined => valueToUndefined value

/-- `createIntArg` from `args.ts`: wraps the value with NO range check
(`BigInt(value)` for a JS number argument is exact on integers). -/
def createIntArg (value : Int) : ArgValue := .int value

/-- `ArgValue.fromNumber` from `types.ts`: same unchecked wrapping. -/
def ArgValue.fromNumber (value : Int) : ArgValue := .int value

/-- `createBytesArg` from `args.ts`. -/
def createBytesArg (value : List Nat) : ArgValue := .bytes value

example : stringToUtxoRef "ab#3".data = .ok ⟨[0xab], 3⟩ := by rfl
example : stringToUtxoRef "ab#-1".data = .ok ⟨[0xab], -1⟩ := by rfl
example : stringToUtxoRef "ab#12xy".data = .ok ⟨[0xab], 12⟩ := by rfl
example : stringToUtxoRef "ab#x".data = .error (.invalidUtxoRef "ab#x".data) := by rfl
example : stringToUtxoRef "ab".data = .error (.invalidUtxoRef "ab".data) := by rfl
example : stringToUtxoRef "a#b#c".data = .error (.invalidUtxoRef "a#b#c".data) := by rfl
example : fromJson (.str "0x".data) .bytes = .ok (.bytes []) := by rfl
example : hexToBytes [] = .ok [] := by rfl

/-- The `error` member of a JSON-RPC response body. -/
structure RpcErrObj where
  message : String
  deriving DecidableEq, Repr

/-- A parsed JSON-RPC response body (`JsonRpcResponse` in `client.ts`);
`none` models an absent / `undefined` field. -/
structure JsonRpcBody where
  result : Option Jval
  error : Option RpcErrObj
  deriving DecidableEq, Repr

/-- The HTTP response the `fetch` call resolves to, reduced to the fields
`makeJsonRpcRequest` reads. -/
structure HttpResponse where
  status : Nat
  statusText : String
  body : JsonRpcBody
  deriving DecidableEq, Repr

/-- `Response.ok` of the Fetch standard: status in the range 200–299. -/
def responseOk (r : HttpResponse) : Bool :=
  200 ≤ r.status && r.status ≤ 299

/-- The TRP error taxonomy of `types.ts`, restricted to the failures
`makeJsonRpcRequest` itself raises on a delivered response. -/
inductive TrpFailure where
  | statusCode (code : Nat) (text : String)
  | jsonRpc (message : String)
  | noResult
  deriving DecidableEq, Repr

/-- The `message` each error class passes to `Error` in `types.ts`. -/
def TrpFailure.message : TrpFailure → String
  | .statusCode code text => "HTTP error " ++ toString code ++ ": " ++ text
  | .jsonRpc m => "JSON-RPC error: " ++ m
  | .noResult => "No result in response"

/-- `Client.makeJsonRpcRequest` from `client.ts`, from the point where the
`fetch` promise has resolved with a response whose body parsed as JSON:
non-2xx status → `StatusCodeError`; an `error` member → `JsonRpcError`;
a missing `result` → `TrpError('No result in response')` unless the method
is `trp.submit`.  (The surrounding `catch` re-throws every `TrpError`
unchanged, so it is the identity on these outcomes.) -/
def makeJsonRpcRequest (method : String) (response : HttpResponse) :
    Except TrpFailure (Option Jval) :=
  if ¬ responseOk response then
    .error (.statusCode response.status response.statusText)
  else
    match response.body.error with
    | some e => .error (.jsonRpc e.message)
    | none =>
      if response.body.result = none ∧ method ≠ "trp.submit" then .error .noResult
      else .ok response.body.result

/-- The request/response tail of `Client.resolve`: a `trp.resolve` call. -/
def resolveRpc (response : HttpResponse) : Except TrpFailure (Option Jval) :=
  makeJsonRpcRequest "trp.resolve" response

/-- The request/response tail of `Client.submit`: a `trp.submit` call. -/
def submitRpc (response : HttpResponse) : Except TrpFailure (Option Jval) :=
  makeJsonRpcRequest "trp.submit" response

/-- `[a-z0-9]`, the class before the boundary in the snake-case regex. -/
def isLowerOrDigit (c : Char) : Bool :=
  (97 ≤ c.toNat && c.toNat ≤ 122) || (48 ≤ c.toNat && c.toNat ≤ 57)

/-- `[A-Z]`, the class after the boundary in the snake-case regex. -/
def isUpperAscii (c : Char) : Bool :=
  65 ≤ c.toNat && c.toNat ≤ 90

/-- The scan of a global `replace(/([a-z0-9])([A-Z])/g, "$1_$2")`: the
first argument is the character under the cursor; on a match both matched
characters are consumed before rescanning. -/
def snakeGo : Char → List Char → List Char
  | c1, [] => [c1]
  | c1, [c2] =>
      if isLowerOrDigit c1 && isUpperAscii c2 then [c1, '_', c2] else [c1, c2]
  | c1, c2 :: r1 :: rtail =>
      if isLowerOrDigit c1 && isUpperAscii c2 then
        c1 :: '_' :: c2 :: snakeGo r1 rtail
      else c1 :: snakeGo c2 (r1 :: rtail)

/-- `key.replace(/([a-z0-9])([A-Z])/g, "$1_$2")`. -/
def insertSnakeSep : List Char → List Char
  | [] => []
  | c :: rest => snakeGo c rest

/-- The key transform of `Client.convertArgsToJson` when `force_snake_case`
is set: boundary insertion, then `toLowerCase()`. -/
def toSnakeCase (key : List Char) : List Char :=
  (insertSnakeSep key).map toLowerAscii

example : toSnakeCase "smallNumber".data = "small_number".data := by decide
example : toSnakeCase "aBC".data = "a_bc".data := by decide
example : toSnakeCase "x9Y".data = "x9_y".data := by decide
example : resolveRpc ⟨200, "OK", ⟨none, none⟩⟩ = .error .noResult := by rfl
example : submitRpc ⟨200, "OK", ⟨none, none⟩⟩ = .ok none := by rfl
example : resolveRpc ⟨404, "Not Found", ⟨none, none⟩⟩ =
    .error (.statusCode 404 "Not Found") := by rfl

lemma charOfNat_toNat {n : Nat} (h : n < 0xd800) : (Char.ofNat n).toNat = n := by
  have hv : n.isValidChar := Or.inl h
  simp [Char.ofNat, hv]
  rfl

lemma hexDigitChar_toNat {n : Nat} (h : n < 16) :
    (hexDigitChar n).toNat = if n < 10 then 48 + n else 87 + n := by
  unfold hexDigitChar
  by_cases h10 : n < 10
  · simp [h10, charOfNat_toNat (by omega : 48 + n < 0xd800)]
  · simp [h10, charOfNat_toNat (by omega : 87 + n < 0xd800)]

lemma isLowerHexChar_hexDigitChar {n : Nat} (h : n < 16) :
    isLowerHexChar (hexDigitChar n) = true := by
  have := hexDigitChar_toNat h
  unfold isLowerHexChar
  by_cases h10 : n < 10 <;> simp [h10] at this <;> simp [this] <;> omega

lemma isHexDigitChar_of_lower {c : Char} (h : isLowerHexChar c = true) :
    isHexDigitChar c = true := by
  unfold isLowerHexChar at h
  unfold isHexDigitChar
  simp only [Bool.or_eq_true, Bool.and_eq_true, decide_eq_true_eq] at h ⊢
  omega

lemma hexDigitVal_hexDigitChar {n : Nat} (h : n < 16) :
    hexDigitVal (hexDigitChar n) = n := by
  have ht := hexDigitChar_toNat h
  unfold hexDigitVal
  by_cases h10 : n < 10 <;> simp [h10] at ht
  · rw [ht]
    have : 48 ≤ 48 + n ∧ 48 + n ≤ 57 := by omega
    simp [this]
  · rw [ht]
    have h1 : ¬ (48 ≤ 87 + n ∧ 87 + n ≤ 57) := by omega
    have h2 : 97 ≤ 87 + n ∧ 87 + n ≤ 102 := by omega
    simp [h1, h2]

lemma hexDigitVal_lt {c : Char} (h : isHexDigitChar c = true) : hexDigitVal c < 16 := by
  unfold isHexDigitChar at h
  unfold hexDigitVal
  simp only [Bool.or_eq_true, Bool.and_eq_true, decide_eq_true_eq] at h
  split
  · omega
  · split
    · omega
    · split
      · omega
      · omega

lemma byteToHexChars_all_lower {b : Nat} (h : b < 256) :
    ∀ c ∈ byteToHexChars b, isLowerHexChar c = true := by
  intro c hc
  unfold byteToHexChars at hc
  simp at hc
  rcases hc with rfl | rfl
  · exact isLowerHexChar_hexDigitChar (by omega)
  · exact isLowerHexChar_hexDigitChar (Nat.mod_lt _ (by omega))

lemma bytesToHex_length (bs : List Nat) : (bytesToHex bs).length = 2 * bs.length := by
  induction bs with
  | nil => rfl
  | cons b t ih =>
    simp [bytesToHex, byteToHexChars] at ih ⊢
    omega

lemma bytesToHex_all_lower {bs : List Nat} (h : ∀ b ∈ bs, b < 256) :
    ∀ c ∈ bytesToHex bs, isLowerHexChar c = true := by
  intro c hc
  unfold bytesToHex at hc
  simp at hc
  obtain ⟨b, hb, hcb⟩ := hc
  exact byteToHexChars_all_lower (h b hb) c hcb

lemma bytesToHex_cons (b : Nat) (t : List Nat) :
    bytesToHex (b :: t) = hexDigitChar (b / 16) :: hexDigitChar (b % 16) :: bytesToHex t := by
  simp [bytesToHex, byteToHexChars]

lemma hexPairsToBytes_bytesToHex {bs : List Nat} (h : ∀ b ∈ bs, b < 256) :
    hexPairsToBytes (bytesToHex bs) = bs := by
  induction bs with
  | nil => rfl
  | cons b t ih =>
    have hb : b < 256 := h b (List.mem_cons_self b t)
    rw [bytesToHex_cons, hexPairsToBytes]
    rw [hexDigitVal_hexDigitChar (by omega : b / 16 < 16)]
    rw [hexDigitVal_hexDigitChar (Nat.mod_lt _ (by omega) : b % 16 < 16)]
    rw [ih (fun x hx => h x (List.mem_cons_of_mem b hx))]
    congr 1
    omega

lemma hexPairsToBytes_lt {s : List Char} (h : ∀ c ∈ s, isHexDigitChar c = true) :
    ∀ b ∈ hexPairsToBytes s, b < 256 := by
  induction s using hexPairsToBytes.induct with
  | case1 c1 c2 rest ih =>
    intro b hb
    rw [hexPairsToBytes] at hb
    simp at hb
    rcases hb with rfl | hb
    · have h1 := hexDigitVal_lt (h c1 (by simp))
      have h2 := hexDigitVal_lt (h c2 (by simp))
      omega
    · exact ih (fun c hc => h c (by simp [hc])) b hb
  | case2 s hne =>
    intro b hb
    cases s with
    | nil => simp [hexPairsToBytes] at hb
    | cons a t =>
      cases t with
      | nil => simp [hexPairsToBytes] at hb
      | cons a2 t2 => exact absurd rfl (hne a a2 t2)

lemma hexDigitChar_hexDigitVal {c : Char} (h : isLowerHexChar c = true) :
    hexDigitChar (hexDigitVal c) = c := by
  unfold isLowerHexChar at h
  simp only [Bool.or_eq_true, Bool.and_eq_true, decide_eq_true_eq] at h
  rcases h with h | h
  · have hval : hexDigitVal c = c.toNat - 48 := by
      unfold hexDigitVal
      rw [if_pos h]
    rw [hval]
    unfold hexDigitChar
    rw [if_pos (by omega)]
    have : 48 + (c.toNat - 48) = c.toNat := by omega
    rw [this, Char.ofNat_toNat]
  · have hval : hexDigitVal c = c.toNat - 87 := by
      unfold hexDigitVal
      rw [if_neg (by omega), if_pos h]
    rw [hval]
    unfold hexDigitChar
    rw [if_neg (by omega)]
    have : 87 + (c.toNat - 87) = c.toNat := by omega
    rw [this, Char.ofNat_toNat]

lemma hexDigitVal_lt_of_lower {c : Char} (h : isLowerHexChar c = true) :
    hexDigitVal c < 16 :=
  hexDigitVal_lt (isHexDigitChar_of_lower h)

/-- Parsing a valid lowercase pair list and re-rendering gives it back. -/
lemma bytesToHex_hexPairsToBytes :
    ∀ s : List Char, s.length % 2 = 0 → (∀ c ∈ s, isLowerHexChar c = true) →
      bytesToHex (hexPairsToBytes s) = s := by
  intro s
  induction s using hexPairsToBytes.induct with
  | case1 c1 c2 rest ih =>
    intro hlen hall
    have h1 : isLowerHexChar c1 = true := hall c1 (by simp)
    have h2 : isLowerHexChar c2 = true := hall c2 (by simp)
    have hv1 := hexDigitVal_lt_of_lower h1
    have hv2 := hexDigitVal_lt_of_lower h2
    rw [hexPairsToBytes, bytesToHex_cons]
    have hdiv : (16 * hexDigitVal c1 + hexDigitVal c2) / 16 = hexDigitVal c1 := by omega
    have hmod : (16 * hexDigitVal c1 + hexDigitVal c2) % 16 = hexDigitVal c2 := by omega
    rw [hdiv, hmod, hexDigitChar_hexDigitVal h1, hexDigitChar_hexDigitVal h2]
    rw [ih (by simp at hlen ⊢; omega) (fun c hc => hall c (by simp [hc]))]
  | case2 s hne =>
    intro hlen hall
    cases s with
    | nil => rfl
    | cons a t =>
      cases t with
      | nil => simp at hlen
      | cons a2 t2 => exact absurd rfl (hne a a2 t2)

/-- A string of lowercase hex digits never carries a `0x` prefix. -/
lemma stripHexPfx_eq_self {s : List Char} (h : ∀ c ∈ s, isLowerHexChar c = true) :
    stripHexPfx s = s := by
  unfold stripHexPfx
  split
  · exfalso
    have hx := h 'x' (by simp)
    simp [isLowerHexChar] at hx
  · rfl

lemma hexToBytes_ok_of_valid {s : List Char}
    (heven : (stripHexPfx s).length % 2 = 0)
    (hhex : ∀ c ∈ stripHexPfx s, isHexDigitChar c = true) :
    hexToBytes s = .ok (hexPairsToBytes (stripHexPfx s)) := by
  unfold hexToBytes
  rw [if_neg (by simp [heven]), if_neg (by simp [List.all_eq_true]; exact hhex)]

lemma stripHexPfx_cons_0x (l : List Char) : stripHexPfx ('0' :: 'x' :: l) = l := rfl

lemma hexToBytes_bytesToHex {bs : List Nat} (h : ∀ b ∈ bs, b < 256) :
    hexToBytes ('0' :: 'x' :: bytesToHex bs) = .ok bs := by
  have heq := stripHexPfx_cons_0x (bytesToHex bs)
  rw [hexToBytes_ok_of_valid (by rw [heq, bytesToHex_length]; omega)
    (by rw [heq]; exact fun c hc => isHexDigitChar_of_lower (bytesToHex_all_lower h c hc))]
  rw [heq, hexPairsToBytes_bytesToHex h]

lemma hexToBytes_of_lower {s : List Char} (heven : s.length % 2 = 0)
    (hlower : ∀ c ∈ s, isLowerHexChar c = true) :
    hexToBytes s = .ok (hexPairsToBytes s) := by
  have heq := stripHexPfx_eq_self hlower
  rw [hexToBytes_ok_of_valid (by rw [heq]; exact heven)
    (by rw [heq]; exact fun c hc => isHexDigitChar_of_lower (hlower c hc)), heq]

/-- The big-endian accumulator value of a byte list
(`result = (result << 8) | byte` over the list). -/
def beNat (bs : List Nat) : Nat :=
  bs.foldl (fun r b => r * 256 + b) 0

/-- The value of a little-endian byte list. -/
def leNat (bs : List Nat) : Nat :=
  bs.foldr (fun b r => r * 256 + b) 0

lemma beNat_reverse (bs : List Nat) : beNat bs.reverse = leNat bs := by
  unfold beNat leNat
  rw [List.foldl_reverse]

lemma leNat_reverse (bs : List Nat) : leNat bs.reverse = beNat bs := by
  rw [← beNat_reverse bs.reverse, List.reverse_reverse]

lemma leNat_nil : leNat [] = 0 := rfl

lemma leNat_cons (b : Nat) (t : List Nat) : leNat (b :: t) = leNat t * 256 + b := rfl

lemma leNat_lt {bs : List Nat} (h : ∀ b ∈ bs, b < 256) : leNat bs < 256 ^ bs.length := by
  induction bs with
  | nil => simp [leNat_nil]
  | cons b t ih =>
    rw [leNat_cons]
    have hb : b < 256 := h b (by simp)
    have ht := ih (fun x hx => h x (by simp [hx]))
    simp [List.length_cons, pow_succ]
    calc leNat t * 256 + b < leNat t * 256 + 256 := by omega
    _ = (leNat t + 1) * 256 := by ring
    _ ≤ 256 ^ t.length * 256 := by
        have : leNat t + 1 ≤ 256 ^ t.length := ht
        exact Nat.mul_le_mul_right 256 this

lemma bytesLE_length (k n : Nat) : (bytesLE k n).length = k := by
  induction k generalizing n with
  | zero => rfl
  | succ k ih => simp [bytesLE, ih]

lemma bytesLE_lt (k n : Nat) : ∀ b ∈ bytesLE k n, b < 256 := by
  induction k generalizing n with
  | zero => simp [bytesLE]
  | succ k ih =>
    intro b hb
    rw [bytesLE] at hb
    rcases List.mem_cons.mp hb with rfl | hb
    · exact Nat.mod_lt _ (by omega)
    · exact ih (n / 256) b hb

lemma leNat_bytesLE (k n : Nat) : leNat (bytesLE k n) = n % 256 ^ k := by
  induction k generalizing n with
  | zero =>
    simp [bytesLE, leNat_nil]
    omega
  | succ k ih =>
    rw [bytesLE, leNat_cons, ih]
    have hek : 1 ≤ 256 ^ k := Nat.one_le_pow k 256 (by omega)
    have hpow : 256 ^ (k + 1) = 256 * 256 ^ k := by ring
    have ha : n / 256 % 256 ^ k < 256 ^ k := Nat.mod_lt _ (by omega)
    have hb : n % 256 < 256 := Nat.mod_lt _ (by omega)
    have h2 : n % (256 * 256 ^ k) = 256 * (n / 256 % 256 ^ k) + n % 256 := by
      conv_lhs => rw [← Nat.div_add_mod n 256]
      rw [Nat.add_mod, Nat.mul_mod_mul_left]
      rw [Nat.mod_eq_of_lt (by omega : n % 256 < 256 * 256 ^ k)]
      exact Nat.mod_eq_of_lt (by omega)
    rw [hpow, h2]
    omega

lemma beNat_foldl (bs : List Nat) :
    ∀ a : Nat, bs.foldl (fun r b => r * 256 + b) a = a * 256 ^ bs.length + beNat bs := by
  induction bs with
  | nil => intro a; simp [beNat]
  | cons b t ih =>
    intro a
    simp only [List.foldl_cons, beNat] at ih ⊢
    rw [ih (a * 256 + b), ih (0 * 256 + b)]
    simp only [List.length_cons]
    ring

lemma beNat_cons (b : Nat) (t : List Nat) :
    beNat (b :: t) = b * 256 ^ t.length + beNat t := by
  show (b :: t).foldl (fun r b => r * 256 + b) 0 = _
  simp only [List.foldl_cons]
  rw [beNat_foldl t (0 * 256 + b)]
  ring_nf

lemma beNat_lt {bs : List Nat} (h : ∀ b ∈ bs, b < 256) : beNat bs < 256 ^ bs.length := by
  have := @leNat_lt bs.reverse (by intro b hb; exact h b (List.mem_reverse.mp hb))
  rw [leNat_reverse, List.length_reverse] at this
  exact this

lemma leNat_map_complement {bs : List Nat} (h : ∀ b ∈ bs, b < 256) :
    leNat (bs.map complementByte) = 256 ^ bs.length - 1 - leNat bs := by
  induction bs with
  | nil => simp [leNat_nil]
  | cons b t ih =>
    have hb : b < 256 := h b (by simp)
    have ht := @leNat_lt t (fun x hx => h x (by simp [hx]))
    have hek : 1 ≤ 256 ^ t.length := Nat.one_le_pow _ 256 (by omega)
    simp only [List.map_cons, leNat_cons, complementByte]
    rw [ih (fun x hx => h x (by simp [hx])), List.length_cons, pow_succ]
    omega

lemma addOneLE_length (bs : List Nat) : (addOneLE bs).length = bs.length := by
  induction bs with
  | nil => rfl
  | cons b t ih =>
    rw [addOneLE]
    split <;> simp [ih]

lemma addOneLE_lt {bs : List Nat} (h : ∀ b ∈ bs, b < 256) :
    ∀ b ∈ addOneLE bs, b < 256 := by
  induction bs with
  | nil => simp [addOneLE]
  | cons b t ih =>
    intro x hx
    rw [addOneLE] at hx
    have hb : b < 256 := h b (by simp)
    split at hx
    · rcases List.mem_cons.mp hx with rfl | hx
      · exact Nat.mod_lt _ (by omega)
      · exact ih (fun y hy => h y (by simp [hy])) x hx
    · rcases List.mem_cons.mp hx with rfl | hx
      · omega
      · exact h x (by simp [hx])

lemma leNat_addOneLE {bs : List Nat} (h : ∀ b ∈ bs, b < 256) :
    leNat (addOneLE bs) = (leNat bs + 1) % 256 ^ bs.length := by
  induction bs with
  | nil => simp [addOneLE, leNat_nil]
  | cons b t ih =>
    have hb : b < 256 := h b (by simp)
    have ht := @leNat_lt t (fun x hx => h x (by simp [hx]))
    have hek : 1 ≤ 256 ^ t.length := Nat.one_le_pow _ 256 (by omega)
    rw [addOneLE]
    split
    · next hge =>
      have hb255 : b = 255 := by omega
      rw [leNat_cons, ih (fun x hx => h x (by simp [hx])), leNat_cons,
        List.length_cons, pow_succ]
      have key : (leNat t * 256 + b + 1) % (256 ^ t.length * 256) =
          256 * ((leNat t + 1) % 256 ^ t.length) := by
        have harr : leNat t * 256 + b + 1 = 256 * (leNat t + 1) := by
          rw [hb255]; ring
        rw [harr, mul_comm (256 ^ t.length) 256, Nat.mul_mod_mul_left]
      rw [key]
      have : (b + 1) % 256 = 0 := by omega
      rw [this]
      ring
    · next hlt =>
      rw [leNat_cons, leNat_cons, List.length_cons, pow_succ]
      rw [Nat.mod_eq_of_lt (by omega : leNat t * 256 + b + 1 < 256 ^ t.length * 256)]
      omega

lemma headD_beNat {bs : List Nat} (h16 : bs.length = 16) (hlt : ∀ b ∈ bs, b < 256) :
    bs.headD 0 = beNat bs / 256 ^ 15 := by
  cases bs with
  | nil => simp at h16
  | cons b t =>
    have ht15 : t.length = 15 := by simp at h16; omega
    have hbt : beNat t < 256 ^ 15 := by
      have := @beNat_lt t (fun x hx => hlt x (by simp [hx]))
      rw [ht15] at this
      exact this
    rw [beNat_cons, ht15]
    have harr : b * 256 ^ 15 + beNat t = beNat t + 256 ^ 15 * b := by ring
    rw [harr, Nat.add_mul_div_left _ _ (by positivity), Nat.div_eq_of_lt hbt]
    simp

lemma foldlInt_beNat (bs : List Nat) :
    bs.foldl (fun (r : Int) (b : Nat) => r * 256 + (b : Int)) 0 = (beNat bs : Int) := by
  suffices h : ∀ a : Nat, bs.foldl (fun (r : Int) (b : Nat) => r * 256 + (b : Int)) (a : Int) =
      ((bs.foldl (fun r b => r * 256 + b) a : Nat) : Int) by
    have h0 := h 0
    simpa [beNat] using h0
  induction bs with
  | nil => intro a; simp
  | cons b t ih =>
    intro a
    simp only [List.foldl_cons]
    have hcast : (a : Int) * 256 + (b : Int) = ((a * 256 + b : Nat) : Int) := by push_cast; ring
    rw [hcast, ih (a * 256 + b)]

lemma n256_pow16 : (256 : ℕ) ^ 16 = 2 ^ 128 := by norm_num

lemma beNat_map_complement {bs : List Nat} (h : ∀ b ∈ bs, b < 256) :
    beNat (bs.map complementByte) = 256 ^ bs.length - 1 - beNat bs := by
  have h1 : beNat (bs.map complementByte) = leNat ((bs.map complementByte).reverse) := by
    rw [leNat_reverse]
  rw [h1, ← List.map_reverse, leNat_map_complement
    (by intro x hx; exact h x (List.mem_reverse.mp hx)), leNat_reverse, List.length_reverse]

lemma bigintToValue_not_safe {v : Int}
    (h : ¬(MIN_SAFE_INTEGER ≤ v ∧ v ≤ MAX_SAFE_INTEGER)) :
    ∃ E : List Nat, bigintToValue v = .str ('0' :: 'x' :: bytesToHex E) ∧
      E.length = 16 ∧ (∀ b ∈ E, b < 256) ∧ (beNat E : Int) = v % (2 ^ 128 : Int) := by
  have h128 : (2 : ℕ) ^ 128 = 340282366920938463463374607431768211456 := by norm_num
  have h128i : (2 : ℤ) ^ 128 = 340282366920938463463374607431768211456 := by norm_num
  have hB : beNat ((bytesLE 16 v.natAbs).reverse) = v.natAbs % 2 ^ 128 := by
    rw [beNat_reverse, leNat_bytesLE, n256_pow16]
  have hBlt : ∀ b ∈ (bytesLE 16 v.natAbs).reverse, b < 256 := by
    intro b hb
    exact bytesLE_lt 16 _ b (List.mem_reverse.mp hb)
  refine ⟨if v < 0 then
      (addOneLE (((bytesLE 16 v.natAbs).reverse.map complementByte)).reverse).reverse
    else (bytesLE 16 v.natAbs).reverse, ?_, ?_, ?_, ?_⟩
  · unfold bigintToValue
    rw [if_neg h]
  · split <;> simp [addOneLE_length, bytesLE_length]
  · split
    · intro b hb
      rw [List.mem_reverse] at hb
      refine addOneLE_lt ?_ b hb
      intro x hx
      rw [List.mem_reverse, List.mem_map] at hx
      obtain ⟨y, _, rfl⟩ := hx
      unfold complementByte
      omega
    · exact hBlt
  · split
    · next hv =>
      have hcompl : beNat ((bytesLE 16 v.natAbs).reverse.map complementByte) =
          2 ^ 128 - 1 - v.natAbs % 2 ^ 128 := by
        rw [beNat_map_complement hBlt, List.length_reverse, bytesLE_length, n256_pow16, hB]
      rw [beNat_reverse, leNat_addOneLE (by
        intro x hx
        rw [List.mem_reverse, List.mem_map] at hx
        obtain ⟨y, _, rfl⟩ := hx
        unfold complementByte
        omega), List.length_reverse, List.length_map, List.length_reverse,
        bytesLE_length, leNat_reverse, hcompl, n256_pow16]
      rw [h128, h128i] at *
      omega
    · next hv =>
      rw [hB, h128, h128i] at *
      omega

lemma testBit7_div {m : Nat} (hm : m < 256 ^ 16) :
    (m / 256 ^ 15).testBit 7 = decide (2 ^ 127 ≤ m) := by
  rw [Nat.testBit_to_div_mod, Nat.div_div_eq_div_mul]
  have h1 : (256 : ℕ) ^ 15 * 2 ^ 7 = 2 ^ 127 := by norm_num
  rw [h1]
  have h127 : (2 : ℕ) ^ 127 = 170141183460469231731687303715884105728 := by norm_num
  have h128 : (256 : ℕ) ^ 16 = 340282366920938463463374607431768211456 := by norm_num
  rw [h127, h128] at *
  rcases Nat.lt_or_ge m 170141183460469231731687303715884105728 with hc | hc
  · rw [decide_eq_false (by omega), decide_eq_false (by omega)]
  · rw [decide_eq_true (by omega : 170141183460469231731687303715884105728 ≤ m),
      decide_eq_true (by omega)]

lemma stringToBigint_ok {s : List Char} {E : List Nat}
    (hhex : hexToBytes s = .ok E) (hlen : E.length = 16) (hlt : ∀ b ∈ E, b < 256) :
    stringToBigint s =
      .ok (if 2 ^ 127 ≤ beNat E then (beNat E : Int) - 2 ^ 128 else (beNat E : Int)) := by
  have hm : beNat E < 256 ^ 16 := by
    have := beNat_lt hlt
    rw [hlen] at this
    exact this
  unfold stringToBigint
  rw [hhex]
  dsimp only
  rw [if_neg (by omega), foldlInt_beNat, headD_beNat hlen hlt, testBit7_div hm]
  by_cases hc : 2 ^ 127 ≤ beNat E
  · rw [decide_eq_true hc, if_pos hc]
    rfl
  · rw [decide_eq_false hc, if_neg hc]
    rfl

set_option maxRecDepth 16384 in
/-- The full Int round trip: encoding any `bigint` and decoding with target
`Int` always succeeds and returns the 128-bit two's-complement wrap of the
value (which is the value itself whenever it lies in the i128 range). -/
lemma fromJson_toJson_int (v : Int) :
    fromJson (toJson (.int v)) Ty.int =
      .ok (.int ((v + 2 ^ 127) % 2 ^ 128 - 2 ^ 127)) := by
  have h127i : (2 : ℤ) ^ 127 = 170141183460469231731687303715884105728 := by norm_num
  have h128i : (2 : ℤ) ^ 128 = 340282366920938463463374607431768211456 := by norm_num
  show fromJson (bigintToValue v) Ty.int = _
  by_cases hsafe : MIN_SAFE_INTEGER ≤ v ∧ v ≤ MAX_SAFE_INTEGER
  · unfold bigintToValue
    rw [if_pos hsafe]
    show (match numberToBigint (v : ℚ) with
      | .ok i => Except.ok (ArgValue.int i)
      | .error e => Except.error e) = _
    unfold numberToBigint
    rw [if_neg (by simp [Rat.den_intCast])]
    have hnum : ((v : ℚ)).num = v := Rat.num_intCast v
    unfold MIN_SAFE_INTEGER MAX_SAFE_INTEGER at hsafe
    rw [if_neg (by
      rw [hnum]
      unfold MIN_I128 MAX_I128
      rw [h127i] at *
      push_neg
      constructor <;> omega)]
    dsimp only
    rw [hnum]
    rw [h127i, h128i] at *
    congr 2
    omega
  · obtain ⟨E, hEq, hlen, hlt, hval⟩ := bigintToValue_not_safe hsafe
    rw [hEq]
    show (match stringToBigint ('0' :: 'x' :: bytesToHex E) with
      | .ok i => Except.ok (ArgValue.int i)
      | .error e => Except.error e) = _
    rw [stringToBigint_ok (hexToBytes_bytesToHex hlt) hlen hlt]
    have hmlt : beNat E < 2 ^ 128 := by
      have := beNat_lt hlt
      rw [hlen, n256_pow16] at this
      exact this
    by_cases hc : 2 ^ 127 ≤ beNat E
    · rw [if_pos hc]
      dsimp only
      congr 2
      have hci : (2 : ℤ) ^ 127 ≤ (beNat E : Int) := by exact_mod_cast hc
      rw [h127i, h128i] at *
      omega
    · rw [if_neg hc]
      dsimp only
      congr 2
      have hci : ¬ (2 : ℤ) ^ 127 ≤ (beNat E : Int) := by exact_mod_cast hc
      rw [h127i, h128i] at *
      omega

lemma notUpper_toLowerAscii (c : Char) : isUpperAscii (toLowerAscii c) = false := by
  unfold toLowerAscii isUpperAscii
  by_cases h : 65 ≤ c.toNat ∧ c.toNat ≤ 90
  · rw [if_pos h, charOfNat_toNat (by omega)]
    simp only [Bool.and_eq_false_iff, decide_eq_false_iff_not]
    omega
  · rw [if_neg h]
    simp only [Bool.and_eq_false_iff, decide_eq_false_iff_not]
    omega

lemma toLowerAscii_idem (c : Char) : toLowerAscii (toLowerAscii c) = toLowerAscii c := by
  unfold toLowerAscii
  by_cases h : 65 ≤ c.toNat ∧ c.toNat ≤ 90
  · rw [if_pos h, if_neg (by rw [charOfNat_toNat (by omega)]; omega)]
  · rw [if_neg h, if_neg h]

lemma snakeGo_cons_no_match {c c2 : Char} {t : List Char}
    (h : (isLowerOrDigit c && isUpperAscii c2) = false) :
    snakeGo c (c2 :: t) = c :: snakeGo c2 t := by
  cases t <;> simp [snakeGo, h]

lemma snakeGo_no_upper :
    ∀ (l : List Char) (c : Char), (∀ x ∈ c :: l, isUpperAscii x = false) →
      snakeGo c l = c :: l := by
  intro l
  induction l with
  | nil => intro c _; rfl
  | cons c2 t ih =>
    intro c h
    have h2 : isUpperAscii c2 = false := h c2 (by simp)
    rw [snakeGo_cons_no_match (by simp [h2])]
    rw [ih c2 (fun x hx => h x (List.mem_cons_of_mem c hx))]

lemma insertSnakeSep_no_upper {l : List Char}
    (h : ∀ x ∈ l, isUpperAscii x = false) : insertSnakeSep l = l := by
  cases l with
  | nil => rfl
  | cons c t => exact snakeGo_no_upper t c h

lemma no_upper_map_toLower (l : List Char) :
    ∀ x ∈ l.map toLowerAscii, isUpperAscii x = false := by
  intro x hx
  rw [List.mem_map] at hx
  obtain ⟨y, _, rfl⟩ := hx
  exact notUpper_toLowerAscii y

/-- Matching `needle` at the front of `hay`. -/
def startsWithL : List Char → List Char → Bool
  | [], _ => true
  | _ :: _, [] => false
  | n :: nt, h :: ht => n = h && startsWithL nt ht

/-- Substring containment of character lists. -/
def hasSubstr (needle : List Char) : List Char → Bool
  | [] => startsWithL needle []
  | c :: t => startsWithL needle (c :: t) || hasSubstr needle t

lemma startsWithL_append {n l r : List Char} (h : startsWithL n l = true) :
    startsWithL n (l ++ r) = true := by
  induction n generalizing l with
  | nil => rfl
  | cons x nt ih =>
    cases l with
    | nil => simp [startsWithL] at h
    | cons c t =>
      simp only [startsWithL, Bool.and_eq_true] at h ⊢
      exact ⟨h.1, ih h.2⟩

lemma hasSubstr_nil_needle (hay : List Char) : hasSubstr [] hay = true := by
  cases hay <;> simp [hasSubstr, startsWithL]

lemma hasSubstr_append {n l r : List Char} (h : hasSubstr n l = true) :
    hasSubstr n (l ++ r) = true := by
  induction l with
  | nil =>
    cases n with
    | nil => exact hasSubstr_nil_needle r
    | cons x nt => simp [hasSubstr, startsWithL] at h
  | cons c t ih =>
    simp only [hasSubstr, Bool.or_eq_true] at h
    rcases h with h | h
    · simp only [List.cons_append, hasSubstr, Bool.or_eq_true]
      exact Or.inl (startsWithL_append h)
    · simp only [List.cons_append, hasSubstr, Bool.or_eq_true]
      exact Or.inr (ih h)

lemma hexToBytes_lt {s : List Char} {E : List Nat} (h : hexToBytes s = .ok E) :
    ∀ b ∈ E, b < 256 := by
  unfold hexToBytes at h
  dsimp only at h
  split_ifs at h with h1 h2
  rw [List.all_eq_true] at h2
  injection h with hE
  subst hE
  exact hexPairsToBytes_lt (fun c hc => h2 c hc)

set_option maxRecDepth 100000 in
/-- C1 counterexample: at `v = 2^127`, which is outside the i128 range,
construction via `createIntArg` succeeds (it returns a value instead of
failing), and encode-then-decode also succeeds — it returns `-2^127`, not
an error — so both halves of the claim are false on the code. -/
theorem claimC1_counterexample :
    createIntArg (2 ^ 127) = ArgValue.int (2 ^ 127) ∧
    fromJson (toJson (createIntArg (2 ^ 127))) Ty.int = .ok (.int (-(2 ^ 127))) ∧
    ¬(MIN_I128 ≤ (2 ^ 127 : Int) ∧ (2 ^ 127 : Int) ≤ MAX_I128) := by
  refine ⟨rfl, by rfl, ?_⟩
  unfold MIN_I128 MAX_I128
  norm_num

/-- C1 (amended): construction (`createIntArg` / `ArgValue.fromNumber`)
performs no range check — it succeeds for every integer; encoding followed
by decoding with target `Int` always succeeds and returns the 128-bit
two's-complement wrap of `v`, which equals `v` exactly when
`MIN_I128 ≤ v ≤ MAX_I128`. -/
theorem claimC1_amended (v : Int) :
    createIntArg v = ArgValue.int v ∧
    ArgValue.fromNumber v = ArgValue.int v ∧
    fromJson (toJson (createIntArg v)) Ty.int =
      .ok (.int ((v + 2 ^ 127) % 2 ^ 128 - 2 ^ 127)) ∧
    (MIN_I128 ≤ v ∧ v ≤ MAX_I128 → (v + 2 ^ 127) % 2 ^ 128 - 2 ^ 127 = v) := by
  refine ⟨rfl, rfl, fromJson_toJson_int v, ?_⟩
  intro hr
  unfold MIN_I128 MAX_I128 at hr
  have h127i : (2 : ℤ) ^ 127 = 170141183460469231731687303715884105728 := by norm_num
  have h128i : (2 : ℤ) ^ 128 = 340282366920938463463374607431768211456 := by norm_num
  rw [h127i, h128i] at *
  omega

/-- C1 amended witness at `v = 3`. -/
theorem claimC1_amended_witness :
    createIntArg 3 = ArgValue.int 3 ∧
    ArgValue.fromNumber 3 = ArgValue.int 3 ∧
    fromJson (toJson (createIntArg 3)) Ty.int =
      .ok (.int (((3 : Int) + 2 ^ 127) % 2 ^ 128 - 2 ^ 127)) ∧
    (MIN_I128 ≤ (3 : Int) ∧ (3 : Int) ≤ MAX_I128 →
      ((3 : Int) + 2 ^ 127) % 2 ^ 128 - 2 ^ 127 = 3) :=
  claimC1_amended 3

/-- C2: for every `v` with `MIN_I128 ≤ v ≤ MAX_I128`, decoding the wire
encoding of the Int value `v` with target `Int` returns exactly `v`. -/
theorem claimC2_int_roundtrip (v : Int) (h1 : MIN_I128 ≤ v) (h2 : v ≤ MAX_I128) :
    fromJson (toJson (ArgValue.int v)) Ty.int = .ok (.int v) := by
  rw [fromJson_toJson_int v]
  congr 2
  unfold MIN_I128 at h1
  unfold MAX_I128 at h2
  have h127i : (2 : ℤ) ^ 127 = 170141183460469231731687303715884105728 := by norm_num
  have h128i : (2 : ℤ) ^ 128 = 340282366920938463463374607431768211456 := by norm_num
  rw [h127i, h128i] at *
  omega

set_option maxRecDepth 100000 in
/-- C2 witness at `v = MIN_I128 = -2^127`. -/
theorem claimC2_int_roundtrip_witness :
    MIN_I128 ≤ -(2 ^ 127 : Int) ∧ -(2 ^ 127 : Int) ≤ MAX_I128 ∧
    fromJson (toJson (ArgValue.int (-(2 ^ 127)))) Ty.int =
      .ok (.int (-(2 ^ 127))) :=
  ⟨by unfold MIN_I128; norm_num, by unfold MAX_I128; norm_num,
    claimC2_int_roundtrip (-(2 ^ 127)) (by unfold MIN_I128; norm_num)
      (by unfold MAX_I128; norm_num)⟩

/-- C3: encoding an Int value yields the host number `v` iff
`|v| ≤ 2^53 - 1`; otherwise it yields a `0x`-prefixed nonempty lowercase
hex string (the pattern `^0x[0-9a-f]+$`). -/
theorem claimC3_safe_boundary (v : Int) :
    (toJson (ArgValue.int v) = Jval.num (v : ℚ) ↔ |v| ≤ 2 ^ 53 - 1) ∧
    (2 ^ 53 - 1 < |v| →
      ∃ hx : List Char, toJson (ArgValue.int v) = .str ('0' :: 'x' :: hx) ∧
        hx ≠ [] ∧ ∀ c ∈ hx, isLowerHexChar c = true) := by
  have hiff : (MIN_SAFE_INTEGER ≤ v ∧ v ≤ MAX_SAFE_INTEGER) ↔ |v| ≤ 2 ^ 53 - 1 := by
    unfold MIN_SAFE_INTEGER MAX_SAFE_INTEGER
    rw [abs_le]
  constructor
  · constructor
    · intro henc
      by_contra hout
      have hnot : ¬(MIN_SAFE_INTEGER ≤ v ∧ v ≤ MAX_SAFE_INTEGER) := fun hc => hout (hiff.mp hc)
      obtain ⟨E, hEq, _, _, _⟩ := bigintToValue_not_safe hnot
      rw [show toJson (ArgValue.int v) = bigintToValue v from rfl, hEq] at henc
      exact Jval.noConfusion henc
    · intro hin
      show bigintToValue v = _
      unfold bigintToValue
      rw [if_pos (hiff.mpr hin)]
  · intro hout
    have hnot : ¬(MIN_SAFE_INTEGER ≤ v ∧ v ≤ MAX_SAFE_INTEGER) := by
      rw [hiff]
      omega
    obtain ⟨E, hEq, hlen, hlt, _⟩ := bigintToValue_not_safe hnot
    refine ⟨bytesToHex E, hEq, ?_, bytesToHex_all_lower hlt⟩
    have := bytesToHex_length E
    rw [hlen] at this
    intro hnil
    rw [hnil] at this
    simp at this

/-- C3 witness at `v = 2^60` (outside the safe-integer range) together
with the number side at `v = 7`. -/
theorem claimC3_safe_boundary_witness :
    ((toJson (ArgValue.int (2 ^ 60)) = Jval.num ((2 ^ 60 : Int) : ℚ) ↔
        |(2 ^ 60 : Int)| ≤ 2 ^ 53 - 1) ∧
      (2 ^ 53 - 1 < |(2 ^ 60 : Int)| →
        ∃ hx : List Char, toJson (ArgValue.int (2 ^ 60)) = .str ('0' :: 'x' :: hx) ∧
          hx ≠ [] ∧ ∀ c ∈ hx, isLowerHexChar c = true)) ∧
    toJson (ArgValue.int 7) = Jval.num ((7 : Int) : ℚ) :=
  ⟨claimC3_safe_boundary (2 ^ 60), (claimC3_safe_boundary 7).1.mpr (by norm_num)⟩

/-- C4 counterexample: a JS `bigint` input — here `0n`, well inside the
i128 range — is NOT accepted by `fromJson` with target `Int`: `typeof 0n`
is `'bigint'`, which matches neither the `'number'` nor the `'string'`
branch of `valueToBigint`, so it falls through to the catch-all and is
rejected with `"Value is not a number"`, contradicting the claim that an
arbitrary-precision integer is accepted and range-checked. -/
theorem claimC4_counterexample :
    fromJson (Jval.bigint 0) Ty.int = .error .valueNotANumber ∧
    ArgErr.message .valueNotANumber = "Value is not a number" :=
  ⟨rfl, rfl⟩

/-- C4 (amended): decoding with target `Int` accepts exactly host numbers
that are mathematical integers (range-checked against i128; non-integers
error with "Number is not an integer") and hex strings decoding to exactly
16 bytes (otherwise "Invalid bytes for number"); `null` errors with
"Value is null"; every other input — a JS `bigint` included — errors with
"Value is not a number". -/
theorem claimC4_amended :
    (∀ q : ℚ, q.den ≠ 1 →
      fromJson (.num q) Ty.int = .error (.numberNotInteger q) ∧
        (ArgErr.numberNotInteger q).message = "Number is not an integer") ∧
    (∀ q : ℚ, q.den = 1 → MIN_I128 ≤ q.num → q.num ≤ MAX_I128 →
      fromJson (.num q) Ty.int = .ok (.int q.num)) ∧
    (∀ q : ℚ, q.den = 1 → q.num < MIN_I128 ∨ q.num > MAX_I128 →
      fromJson (.num q) Ty.int = .error (.numberOutsideI128 q) ∧
        (ArgErr.numberOutsideI128 q).message = "Number is outside i128 range") ∧
    (∀ (s : List Char) (e : ArgErr), hexToBytes s = .error e →
      fromJson (.str s) Ty.int = .error e) ∧
    (∀ (s : List Char) (E : List Nat), hexToBytes s = .ok E → E.length = 16 →
      ∃ i : Int, fromJson (.str s) Ty.int = .ok (.int i)) ∧
    (∀ (s : List Char) (E : List Nat), hexToBytes s = .ok E → E.length ≠ 16 →
      fromJson (.str s) Ty.int = .error (.invalidBytesForNumber s) ∧
        (ArgErr.invalidBytesForNumber s).message = "Invalid bytes for number") ∧
    (fromJson .null Ty.int = .error .valueIsNull ∧
      ArgErr.valueIsNull.message = "Value is null") ∧
    (∀ i : Int, fromJson (.bigint i) Ty.int = .error .valueNotANumber) ∧
    (∀ b : Bool, fromJson (.bool b) Ty.int = .error .valueNotANumber) ∧
    (∀ c e : List Char, fromJson (.envelope c e) Ty.int = .error .valueNotANumber) ∧
    (∀ d : List Char, fromJson (.other d) Ty.int = .error .valueNotANumber) ∧
    ArgErr.message .valueNotANumber = "Value is not a number" := by
  refine ⟨?_, ?_, ?_, ?_, ?_, ?_, ⟨rfl, rfl⟩, fun i => rfl, fun b => rfl,
    fun c e => rfl, fun d => rfl, rfl⟩
  · intro q hq
    refine ⟨?_, rfl⟩
    show (match numberToBigint q with
      | .ok i => Except.ok (ArgValue.int i)
      | .error e => Except.error e) = _
    unfold numberToBigint
    rw [if_pos hq]
  · intro q hden hlo hhi
    show (match numberToBigint q with
      | .ok i => Except.ok (ArgValue.int i)
      | .error e => Except.error e) = _
    unfold numberToBigint
    rw [if_neg (by omega : ¬q.den ≠ 1), if_neg (by push_neg; exact ⟨hlo, hhi⟩)]
  · intro q hden hout
    refine ⟨?_, rfl⟩
    show (match numberToBigint q with
      | .ok i => Except.ok (ArgValue.int i)
      | .error e => Except.error e) = _
    unfold numberToBigint
    rw [if_neg (by omega : ¬q.den ≠ 1), if_pos hout]
  · intro s e hhex
    show (match stringToBigint s with
      | .ok i => Except.ok (ArgValue.int i)
      | .error e => Except.error e) = _
    unfold stringToBigint
    rw [hhex]
  · intro s E hhex hlen
    refine ⟨if 2 ^ 127 ≤ beNat E then (beNat E : Int) - 2 ^ 128 else (beNat E : Int), ?_⟩
    show (match stringToBigint s with
      | .ok i => Except.ok (ArgValue.int i)
      | .error e => Except.error e) = _
    rw [stringToBigint_ok hhex hlen (hexToBytes_lt hhex)]
  · intro s E hhex hlen
    refine ⟨?_, rfl⟩
    show (match stringToBigint s with
      | .ok i => Except.ok (ArgValue.int i)
      | .error e => Except.error e) = _
    unfold stringToBigint
    rw [hhex]
    dsimp only
    rw [if_pos hlen]

/-- C4 amended witness: concrete instances for the hypothesised
conjuncts — the non-integer number `1/2`, the in-range integer `5`, the
out-of-range integral number `2^128`, the invalid hex string `"zz"`, the
16-byte string for `1`, and a 1-byte hex string. -/
theorem claimC4_amended_witness :
    ((1 : ℚ) / 2).den ≠ 1 ∧
    fromJson (.num ((1 : ℚ) / 2)) Ty.int = .error (.numberNotInteger ((1 : ℚ) / 2)) ∧
    fromJson (.num 5) Ty.int = .ok (.int 5) ∧
    fromJson (.num (((2 : Int) ^ 128 : Int) : ℚ)) Ty.int =
      .error (.numberOutsideI128 (((2 : Int) ^ 128 : Int) : ℚ)) ∧
    fromJson (.str "zz".data) Ty.int = .error (.invalidHexString "zz".data) ∧
    (∃ i : Int, fromJson (.str "0x00000000000000000000000000000001".data) Ty.int =
      .ok (.int i)) ∧
    fromJson (.str "ff".data) Ty.int = .error (.invalidBytesForNumber "ff".data) := by
  have h1 : ((1 : ℚ) / 2).den ≠ 1 := by norm_num
  have h5den : (5 : ℚ).den = 1 := by norm_num
  have h5num : (5 : ℚ).num = 5 := by norm_num
  refine ⟨h1, (claimC4_amended.1 ((1 : ℚ) / 2) h1).1, ?_, ?_, ?_, ?_, ?_⟩
  · have := claimC4_amended.2.1 5 h5den (by rw [h5num]; unfold MIN_I128; norm_num)
      (by rw [h5num]; unfold MAX_I128; norm_num)
    rw [h5num] at this
    exact this
  · exact (claimC4_amended.2.2.1 (((2 : Int) ^ 128 : Int) : ℚ) (Rat.den_intCast _)
      (by rw [Rat.num_intCast]; unfold MAX_I128; norm_num)).1
  · exact claimC4_amended.2.2.2.1 "zz".data (.invalidHexString "zz".data) (by rfl)
  · exact claimC4_amended.2.2.2.2.1 "0x00000000000000000000000000000001".data
      (List.replicate 15 0 ++ [1]) (by rfl) (by rfl)
  · exact (claimC4_amended.2.2.2.2.2.1 "ff".data [0xff] (by rfl) (by simp)).1

lemma hex_roundtrip_lower (s : List Char) (heven : s.length % 2 = 0)
    (hlower : ∀ c ∈ s, isLowerHexChar c = true) :
    ∃ bs : List Nat, hexToBytes s = .ok bs ∧ bytesToHex bs = s :=
  ⟨hexPairsToBytes s, hexToBytes_of_lower heven hlower,
    bytesToHex_hexPairsToBytes s heven hlower⟩

lemma hexToBytes_bytesToHex_bare {bs : List Nat} (h : ∀ b ∈ bs, b < 256) :
    hexToBytes (bytesToHex bs) = .ok bs := by
  rw [hexToBytes_of_lower (by rw [bytesToHex_length]; omega) (bytesToHex_all_lower h),
    hexPairsToBytes_bytesToHex h]

/-- C5 counterexample: `"AB"` is a valid even-length hex input — it
decodes to `[0xab]` — yet re-encoding gives `"ab"`, not `"AB"`, so the
two functions are not exact inverses on every valid even-length hex
input (`bytesToHex` lowercases, and a `0x` prefix is likewise dropped). -/
theorem claimC5_counterexample :
    hexToBytes "AB".data = .ok [0xab] ∧
    bytesToHex [0xab] = "ab".data ∧
    "ab".data ≠ "AB".data :=
  ⟨by rfl, by decide, by decide⟩

/-- C5 (amended): `hexToBytes ∘ bytesToHex` is the identity on all byte
sequences, and `bytesToHex ∘ hexToBytes` is the identity on even-length
LOWERCASE unprefixed hex strings; other valid hex input (uppercase
letters, `0x` prefix) round-trips to its normalized lowercase form, not
to itself. -/
theorem claimC5_amended :
    (∀ bs : List Nat, (∀ b ∈ bs, b < 256) → hexToBytes (bytesToHex bs) = .ok bs) ∧
    (∀ s : List Char, s.length % 2 = 0 → (∀ c ∈ s, isLowerHexChar c = true) →
      ∃ bs : List Nat, hexToBytes s = .ok bs ∧ bytesToHex bs = s) :=
  ⟨fun _ h => hexToBytes_bytesToHex_bare h, hex_roundtrip_lower⟩

/-- C5 amended witness at `bs = [0xde, 0xad]` and `s = "deadbeef"`. -/
theorem claimC5_amended_witness :
    hexToBytes (bytesToHex [0xde, 0xad]) = .ok [0xde, 0xad] ∧
    ∃ bs : List Nat, hexToBytes "deadbeef".data = .ok bs ∧
      bytesToHex bs = "deadbeef".data :=
  ⟨claimC5_amended.1 [0xde, 0xad] (by decide),
    claimC5_amended.2 "deadbeef".data (by decide) (by decide)⟩

/-- C6 counterexample: `"ab#-1"` decodes successfully as a UtxoRef with
index `-1`, although its index segment is not a base-10 non-negative
integer — `parseInt` accepts a sign — so "succeeds only when the index
parses as a non-negative integer" is false on the code. -/
theorem claimC6_counterexample :
    fromJson (.str "ab#-1".data) Ty.utxoRef = .ok (.utxoRef ⟨[0xab], -1⟩) ∧
    ¬(0 : Int) ≤ -1 := ⟨by rfl, by norm_num⟩

/-- C6 (amended): decoding a string with target `UtxoRef` succeeds only
when splitting on `#` yields exactly two segments (the separator appears
exactly once) and the index segment has a parsable `parseInt(_, 10)`
prefix — optional sign, at least one leading digit, trailing characters
ignored, possibly negative; a wrong segment count or an unparsable index
throws `ArgValueError("Invalid utxo ref")`. -/
theorem claimC6_amended :
    (∀ s : List Char, (s.splitOn '#').length ≠ 2 →
      fromJson (.str s) Ty.utxoRef = .error (.invalidUtxoRef s)) ∧
    (∀ s : List Char, (s.splitOn '#').length = 2 →
      ∀ txid : List Nat, hexToBytes ((s.splitOn '#').headD []) = .ok txid →
        parseIntBase10 ((s.splitOn '#').getD 1 []) = none →
        fromJson (.str s) Ty.utxoRef = .error (.invalidUtxoRef s)) ∧
    (∀ s : List Char, (s.splitOn '#').length = 2 →
      ∀ (txid : List Nat) (i : Int), hexToBytes ((s.splitOn '#').headD []) = .ok txid →
        parseIntBase10 ((s.splitOn '#').getD 1 []) = some i →
        fromJson (.str s) Ty.utxoRef = .ok (.utxoRef ⟨txid, i⟩)) ∧
    (∀ s : List Char, (ArgErr.invalidUtxoRef s).message = "Invalid utxo ref") := by
  refine ⟨?_, ?_, ?_, fun s => rfl⟩
  · intro s hlen
    show (match stringToUtxoRef s with
      | .ok r => Except.ok (ArgValue.utxoRef r)
      | .error e => Except.error e) = _
    unfold stringToUtxoRef
    rw [if_pos hlen]
  · intro s hlen txid hhex hparse
    show (match stringToUtxoRef s with
      | .ok r => Except.ok (ArgValue.utxoRef r)
      | .error e => Except.error e) = _
    unfold stringToUtxoRef
    rw [if_neg (by omega)]
    dsimp only
    rw [hhex]
    dsimp only
    rw [hparse]
  · intro s hlen txid i hhex hparse
    show (match stringToUtxoRef s with
      | .ok r => Except.ok (ArgValue.utxoRef r)
      | .error e => Except.error e) = _
    unfold stringToUtxoRef
    rw [if_neg (by omega)]
    dsimp only
    rw [hhex]
    dsimp only
    rw [hparse]

/-- C6 amended witness: concrete instances — a valid ref, a missing
separator, and a non-numeric index. -/
theorem claimC6_amended_witness :
    fromJson (.str "ab#7".data) Ty.utxoRef = .ok (.utxoRef ⟨[0xab], 7⟩) ∧
    fromJson (.str "ab".data) Ty.utxoRef = .error (.invalidUtxoRef "ab".data) ∧
    fromJson (.str "ab#x".data) Ty.utxoRef = .error (.invalidUtxoRef "ab#x".data) :=
  ⟨claimC6_amended.2.2.1 "ab#7".data (by decide) [0xab] 7 (by rfl) (by rfl),
    claimC6_amended.1 "ab".data (by decide),
    claimC6_amended.2.1 "ab#x".data (by decide) [0xab] (by rfl) (by rfl)⟩

/-- C7: the camelCase→snake_case key transform of the marshaller is
idempotent — applying it to an already-transformed key is a no-op. -/
theorem claimC7_snake_case_idempotent (k : List Char) :
    toSnakeCase (toSnakeCase k) = toSnakeCase k := by
  unfold toSnakeCase
  rw [insertSnakeSep_no_upper (no_upper_map_toLower _), List.map_map]
  have hcomp : toLowerAscii ∘ toLowerAscii = toLowerAscii := funext toLowerAscii_idem
  rw [hcomp]

/-- C8: an HTTP-successful JSON-RPC response with no `error` member and an
absent `result` makes `trp.resolve` fail with `TrpError("No result in
response")`, while `trp.submit` treats the same response as success. -/
theorem claimC8_no_result (r : HttpResponse) (hok : responseOk r = true)
    (herr : r.body.error = none) (hres : r.body.result = none) :
    resolveRpc r = .error .noResult ∧
    TrpFailure.noResult.message = "No result in response" ∧
    submitRpc r = .ok none := by
  refine ⟨?_, rfl, ?_⟩
  · unfold resolveRpc makeJsonRpcRequest
    rw [if_neg (by simp [hok]), herr]
    dsimp only
    rw [if_pos ⟨hres, by decide⟩]
  · unfold submitRpc makeJsonRpcRequest
    rw [if_neg (by simp [hok]), herr]
    dsimp only
    rw [if_neg (by simp), hres]

/-- C8 witness: a concrete 200 response with empty body fields. -/
theorem claimC8_no_result_witness :
    resolveRpc ⟨200, "OK", ⟨none, none⟩⟩ = .error .noResult ∧
    TrpFailure.noResult.message = "No result in response" ∧
    submitRpc ⟨200, "OK", ⟨none, none⟩⟩ = .ok none :=
  claimC8_no_result ⟨200, "OK", ⟨none, none⟩⟩ rfl rfl rfl

/-- C9: every response with a non-2xx status makes the JSON-RPC call fail
with a `StatusCodeError` carrying the status code and status text; its
message is `HTTP error <status>: <statusText>`, which for status 404
contains the substring `"404"`. -/
theorem claimC9_status_code (r : HttpResponse) (m : String)
    (h : ¬(200 ≤ r.status ∧ r.status ≤ 299)) :
    makeJsonRpcRequest m r = .error (.statusCode r.status r.statusText) ∧
    (TrpFailure.statusCode r.status r.statusText).message =
      "HTTP error " ++ toString r.status ++ ": " ++ r.statusText ∧
    (r.status = 404 →
      hasSubstr "404".data
        ((TrpFailure.statusCode r.status r.statusText).message).data = true) := by
  refine ⟨?_, rfl, ?_⟩
  · unfold makeJsonRpcRequest
    rw [if_pos (by simp [responseOk]; omega)]
  · intro h404
    rw [h404]
    show hasSubstr "404".data
      ("HTTP error " ++ toString (404 : Nat) ++ ": " ++ r.statusText).data = true
    rw [String.data_append]
    exact hasSubstr_append (by decide)

/-- C9 witness: a concrete 404 response on a `trp.resolve` call. -/
theorem claimC9_status_code_witness :
    ¬(200 ≤ (404 : Nat) ∧ (404 : Nat) ≤ 299) ∧
    makeJsonRpcRequest "trp.resolve" ⟨404, "Not Found", ⟨none, none⟩⟩ =
      .error (.statusCode 404 "Not Found") ∧
    hasSubstr "404".data ((TrpFailure.statusCode 404 "Not Found").message).data = true :=
  ⟨by omega,
    (claimC9_status_code ⟨404, "Not Found", ⟨none, none⟩⟩ "trp.resolve" (by decide)).1,
    (claimC9_status_code ⟨404, "Not Found", ⟨none, none⟩⟩ "trp.resolve" (by decide)).2.2 rfl⟩

/-- C10: empty byte sequences are fully supported: `hexToBytes` accepts
both `""` and `"0x"` returning the empty sequence, encoding the empty
Bytes value yields exactly `"0x"`, and the Bytes round trip holds for the
empty byte sequence. -/
theorem claimC10_empty_bytes :
    hexToBytes [] = .ok [] ∧
    hexToBytes "0x".data = .ok [] ∧
    toJson (createBytesArg []) = .str "0x".data ∧
    fromJson (toJson (createBytesArg [])) Ty.bytes = .ok (.bytes []) :=
  ⟨rfl, rfl, rfl, rfl⟩
